import Mathlib

/-!
Verification of the Nero-umu manager front-end (`src/neromanager.cpp`,
`src/neropreferences.cpp`) against its natural-language specification.

Qt strings (`QString`) are modelled as `List Char`; Qt containers
(`QList`, `QStringList`, `QMap`, `QSettings` groups,
`QProcessEnvironment`) as Lean lists and association lists.  Every
definition below is a direct translation of a function or handler of the
C++ source; the corresponding source lines are cited in the doc comments.
-/

namespace Nero

/-- A `QString` modelled as a list of characters. -/
abbrev Str := List Char

/-- Convenience coercion from a Lean string literal. -/
def str (s : String) : Str := s.toList

/-- Models `QString::number` on a natural count (`QString::number(currentlyRunning.count())`). -/
def natToStr (n : Nat) : Str := Nat.toDigits 10 n

/-- How `QSettings` serialises a `bool` value. -/
def boolStr (b : Bool) : Str := if b then str "true" else str "false"

/-- Case folding used by `Qt::CaseInsensitive` comparisons. -/
def lowerStr (s : Str) : Str := s.map Char.toLower

/-- Models `QStringList::join` with a space separator (neromanager.cpp:318, 872). -/
def joinSpace : List Str → Str
  | [] => []
  | [s] => s
  | s :: rest => s ++ [' '] ++ joinSpace rest

/-- Models `QStringList::filter(pat)`: keeps the entries containing `pat` as a
substring (neromanager.cpp:315, 869). -/
def filterContains (l : List Str) (pat : Str) : List Str :=
  l.filter (fun s => decide (pat <:+: s))

/-- Fuel-driven worker for `strReplace`; consumes at least one character of
the subject per step, so `s.length` fuel suffices. -/
def strReplaceFuel : Nat → Str → Str → Str → Str
  | 0, s, _, _ => s
  | _ + 1, [], _, _ => []
  | fuel + 1, c :: rest, pat, rep =>
    if pat.isPrefixOf (c :: rest) && !pat.isEmpty then
      rep ++ strReplaceFuel fuel (rest.drop (pat.length - 1)) pat rep
    else
      c :: strReplaceFuel fuel rest pat rep

/-- Models `QString::replace(pat, rep)`: replaces every occurrence of `pat`,
left to right, without rescanning the replacement text
(neromanager.cpp:649-650). -/
def strReplace (s pat rep : Str) : Str := strReplaceFuel s.length s pat rep

/-- Models `QSettings::setValue` inside a group, and `QProcessEnvironment::insert`:
overwrite the value when the key is present (keys are unique in both
stores), append the pair otherwise. -/
def setCfgValue : List (Str × Str) → Str → Str → List (Str × Str)
  | [], k, v => [(k, v)]
  | p :: rest, k, v =>
    if p.1 == k then (k, v) :: rest else p :: setCfgValue rest k v

/-- Models `QSettings::value` and `QProcessEnvironment::value`: first binding of the key. -/
def cfgLookup (store : List (Str × Str)) (key : Str) : Option Str :=
  (store.find? (fun p => p.1 == key)).map (·.2)

/-! ## Launch environment construction (claim C8)

`CreatePrefix` (neromanager.cpp:293-301) and `tricksWindow_result`
(neromanager.cpp:850-861) build the subprocess environment with the same
four inserts on top of the inherited system environment. -/

/-- The four `env.insert` calls shared by both call sites, applied to the
system environment `base`.  `pfxRoot` is `NeroFS::GetPrefixesPath().path()`,
`protonsRoot` is `NeroFS::GetProtonsPath().path()`. -/
def buildLaunchEnv (base : List (Str × Str)) (pfxRoot protonsRoot pfxName runner : Str) :
    List (Str × Str) :=
  setCfgValue
    (setCfgValue
      (setCfgValue
        (setCfgValue base (str "WINEPREFIX") (pfxRoot ++ [ '/' ] ++ pfxName))
        (str "GAMEID") (str "0"))
      (str "PROTONPATH") (protonsRoot ++ [ '/' ] ++ runner))
    (str "PROTON_USE_XALIA") (str "0")

/-- Environment built by `CreatePrefix` (neromanager.cpp:293-299): the runner
is the wizard-selected runner argument. -/
def createPrefixEnv (base : List (Str × Str)) (pfxRoot protonsRoot newPfx runner : Str) :
    List (Str × Str) :=
  buildLaunchEnv base pfxRoot protonsRoot newPfx runner

/-- Environment built by `tricksWindow_result` (neromanager.cpp:850-859): the
runner is `settingsMap["CurrentRunner"]` of the current prefix settings
(`QMap::value` returns the empty string when the key is absent). -/
def tricksInstallEnv (base : List (Str × Str)) (pfxRoot protonsRoot currentPfx : Str)
    (settingsMap : List (Str × Str)) : List (Str × Str) :=
  buildLaunchEnv base pfxRoot protonsRoot currentPfx
    ((cfgLookup settingsMap (str "CurrentRunner")).getD [])

/-! ## Winetricks shell command construction (claim C4) -/

/-- The two registry-deletion steps prepended for .NET verbs
(neromanager.cpp:316-317 and 870-871), each followed by `" && "`. -/
def dotnetCleanupSteps (umu : Str) : Str :=
  umu ++ str " reg delete \"HKLM\\Software\\Wow6432Node\\Microsoft\\.NETFramework\" /f && " ++
  umu ++ str " reg delete \"HKLM\\Software\\Wow6432Node\\Microsoft\\NET Framework Setup\" /f && "

/-- The plain installer command `umu ++ ' ' ++ tricks.join(' ')` where the
verb list has already been prefixed with `"winetricks"`. -/
def plainTricksCmd (umu : Str) (tricks : List Str) : Str :=
  umu ++ [' '] ++ joinSpace tricks

/-- Argument list handed to `/bin/sh` by `CreatePrefix` when the requested
verb list is non-empty (neromanager.cpp:310-323): prepends `"winetricks"`,
then prepends the registry cleanup exactly when some entry of the
(prefixed) list contains `"dotnet"`, and finally prepends `"-c"`. -/
def createPrefixShArgs (umu : Str) (tricksToInstall : List Str) : List Str :=
  if filterContains (str "winetricks" :: tricksToInstall) (str "dotnet") ≠ [] then
    [str "-c",
      dotnetCleanupSteps umu ++ plainTricksCmd umu (str "winetricks" :: tricksToInstall)]
  else
    [str "-c", plainTricksCmd umu (str "winetricks" :: tricksToInstall)]

/-- Argument list handed to `/bin/sh` by `tricksWindow_result`
(neromanager.cpp:864-877): same construction, except the cleanup is applied
only when additionally no already-installed verb contains `"dotnet"`. -/
def tricksWindowShArgs (umu : Str) (installedVerbs verbsToInstall : List Str) : List Str :=
  if (filterContains installedVerbs (str "dotnet")).isEmpty &&
      !(filterContains (str "winetricks" :: verbsToInstall) (str "dotnet")).isEmpty then
    [str "-c",
      dotnetCleanupSteps umu ++ plainTricksCmd umu (str "winetricks" :: verbsToInstall)]
  else
    [str "-c", plainTricksCmd umu (str "winetricks" :: verbsToInstall)]

/-! ## Prefix-creation completion (claim C1)

`CreatePrefix` after the output pump has drained (neromanager.cpp:352-414):
the exit code selects the success or failure notification, and the commit
to the registry store (`NeroFS::AddNewPrefix`) is guarded solely by the
existence of `system.reg` inside the new prefix directory. -/

/-- Observable outcome of the tail of `CreatePrefix`. -/
structure CreatePrefixOutcome where
  /-- The registry store (prefix name, runner) after the flow. -/
  registryPrefixes : List (Str × Str)
  /-- The success notification branch was taken (neromanager.cpp:352-355). -/
  notifiedSuccess : Bool
  /-- The failure notification branch was taken (neromanager.cpp:356-362). -/
  notifiedFailure : Bool
deriving DecidableEq

/-- Tail of `CreatePrefix` (neromanager.cpp:352-414): notification chosen by
`umu.exitCode()`, commit `NeroFS::AddNewPrefix(newPrefix, runner)` executed
iff `prefixPath.exists("system.reg")`. -/
def createPrefixFinish (exitCode : Int) (sysRegExists : Bool)
    (prefixes : List (Str × Str)) (newPfx runner : Str) : CreatePrefixOutcome :=
  { notifiedSuccess := decide (exitCode = 0)
  , notifiedFailure := decide (exitCode ≠ 0)
  , registryPrefixes :=
      if sysRegExists then prefixes ++ [(newPfx, runner)] else prefixes }

/-! ## Shortcut identity generation (claim C5)

`on_addButton_clicked` (neromanager.cpp:458-469): an initial MD5 digest is
re-rolled while it collides with an existing key of the `Shortcuts` group.
The digests are modelled as an arbitrary candidate stream `cands`; the loop
returns the first candidate that is not an existing hash. -/

/-- The collision re-roll loop: the returned hash is `cands n` for the least
`n` whose candidate avoids `existingHashes` (the loop terminates exactly when
some candidate is fresh, which is the hypothesis `h`). -/
def generateUniqueHash (existingHashes : List Str) (cands : Nat → Str)
    (h : ∃ n, cands n ∉ existingHashes) : Str :=
  cands (Nat.find h)

/-! ## Orchestration state (claims C2, C3, C6)

The run-slot bookkeeping of `NeroManagerWindow`: `currentlyRunning` (list of
button slots, `-1` for one-time runs), `threadsCount`, the dense
`umuController` list (`nullptr` modelled as `none`), `oneOffsRunning`, the
system-tray tooltip, and the flags consulted by `on_backButton_clicked`. -/

/-- One `NeroThreadController` as constructed at launch
(neromanager.cpp:674-676): the button slot, the shortcut hash (or one-time
path), and the `alreadyRunning` group flag. -/
structure RunCtrl where
  slot : Int
  parameters : Str
  alreadyRunning : Bool
deriving DecidableEq

/-- The orchestration fields of `NeroManagerWindow`. -/
structure ManagerState where
  currentlyRunning : List Int
  threadsCount : Nat
  umuController : List (Option RunCtrl)
  oneOffsRunning : List Str
  sysTrayTooltip : Str
  prefixSettingsBtnEnabled : Bool
  prefixTricksBtnEnabled : Bool
  prefixIsSelected : Bool
  runnerPrefixIsDefault : Bool
deriving DecidableEq

/-- Neutral tooltip `"Nero Manager"` (neromanager.cpp:113, 1124). -/
def neutralTooltip : Str := str "Nero Manager"

/-- Tooltip naming the single running app
(neromanager.cpp:663, 727, 1129-1130). -/
def runningOneTooltip (pfxName appName : Str) : Str :=
  str "Nero Manager (" ++ pfxName ++ str " is running " ++ appName ++ [')']

/-- Tooltip showing the numeric count of running apps
(neromanager.cpp:662, 726, 1131). -/
def runningManyTooltip (pfxName : Str) (n : Nat) : Str :=
  str "Nero Manager (" ++ pfxName ++ str " is running " ++ natToStr n ++ str " apps)"

/-- Observable outcome of a play-button click. -/
inductive PlayOutcome where
  /-- The slot was already running: `Stop()` sent to its controller
  (neromanager.cpp:636-643). -/
  | stoppedExisting : PlayOutcome
  /-- A new launch was started (neromanager.cpp:651-682). -/
  | launched : PlayOutcome
  /-- `QMessageBox::critical` file-not-found shown, no launch
  (neromanager.cpp:683-688). -/
  | fileNotFound : PlayOutcome
deriving DecidableEq

/-- The handler `prefixShortcutPlayButtons_clicked` (neromanager.cpp:631-690) restricted
to the orchestration fields.  `shortcutPath` is the persisted `Path` setting
of the clicked shortcut, `fsExists` models `QFileInfo::exists`, `pfxRoot` is
`NeroFS::GetPrefixesPath().canonicalPath()` and `currentPfx` the current
prefix name.  Pure GUI effects (icons, window hiding, dialog creation) are
not modelled. -/
def prefixShortcutPlayButtons_clicked (s : ManagerState) (slot : Int)
    (hash label shortcutPath pfxRoot currentPfx : Str)
    (fsExists : Str → Bool) : ManagerState × PlayOutcome :=
  if s.currentlyRunning.contains slot then
    (s, .stoppedExisting)
  else
    if fsExists (strReplace shortcutPath (str "C:/")
        (pfxRoot ++ [ '/' ] ++ currentPfx ++ str "/drive_c/")) then
      let running := s.currentlyRunning ++ [slot]
      ({ s with
          prefixSettingsBtnEnabled := false
          prefixTricksBtnEnabled := false
          threadsCount := s.threadsCount + 1
          currentlyRunning := running
          sysTrayTooltip :=
            if running.length > 1 then runningManyTooltip currentPfx running.length
            else runningOneTooltip currentPfx label
          umuController :=
            s.umuController ++ [some ⟨slot, hash, decide (running.length > 1)⟩] },
        .launched)
    else
      (s, .fileNotFound)

/-- The handler `handleUmuResults` (neromanager.cpp:1098-1137) restricted to the
orchestration fields.  `buttonSlot` and `threadSlot` are the signal payload
and the `slot` property of the sender; `shortcutLabels` models
`prefixShortcutLabel.at(i)->text()`; `runningName` is the `running`
property of the sender (one-time app name). -/
def handleUmuResults (s : ManagerState) (buttonSlot : Int) (threadSlot : Nat)
    (shortcutLabels : Int → Str) (runningName : Str) (currentPfx : Str) : ManagerState :=
  let oneOffs :=
    if buttonSlot ≥ 0 then s.oneOffsRunning else s.oneOffsRunning.erase runningName
  let ctrls := s.umuController.set threadSlot none
  let running := s.currentlyRunning.erase buttonSlot
  if running.length = 0 then
    { s with
        oneOffsRunning := oneOffs
        currentlyRunning := []
        threadsCount := 0
        umuController := []
        runnerPrefixIsDefault := false
        sysTrayTooltip := neutralTooltip
        prefixSettingsBtnEnabled := true
        prefixTricksBtnEnabled := true }
  else if running.length = 1 then
    { s with
        oneOffsRunning := oneOffs
        currentlyRunning := running
        umuController := ctrls
        sysTrayTooltip :=
          if running.headD 0 ≠ -1 then
            runningOneTooltip currentPfx (shortcutLabels (running.headD 0))
          else
            runningOneTooltip currentPfx (oneOffs.headD []) }
  else
    { s with
        oneOffsRunning := oneOffs
        currentlyRunning := running
        umuController := ctrls
        sysTrayTooltip := runningManyTooltip currentPfx running.length }

/-- A sample manager state with two running shortcut slots, used to
instantiate the tooltip theorem on concrete data. -/
def sampleTwoRunning : ManagerState :=
  { currentlyRunning := [0, 1]
    threadsCount := 2
    umuController := [some ⟨0, str "aa11", false⟩, some ⟨1, str "bb22", true⟩]
    oneOffsRunning := []
    sysTrayTooltip := runningManyTooltip (str "Test") 2
    prefixSettingsBtnEnabled := false
    prefixTricksBtnEnabled := false
    prefixIsSelected := true
    runnerPrefixIsDefault := false }

/-- The descending scan of `on_backButton_clicked` (neromanager.cpp:545-551):
for `i = threadsCount` down to `1`, stop at the first index `i - 1` whose
controller is non-null. -/
def stopScan (ctrls : List (Option RunCtrl)) : Nat → Option Nat
  | 0 => none
  | i + 1 =>
    match ctrls.getD i none with
    | some _ => some i
    | none => stopScan ctrls i

/-- Indices of the controllers that receive `Stop()` during
`on_backButton_clicked` (neromanager.cpp:536-553): the loop runs only when
something is running and launches did not happen on the default-prefix page,
and it breaks after the first hit. -/
def backButtonStopTargets (s : ManagerState) : List Nat :=
  if s.currentlyRunning.length > 0 then
    if ¬(s.prefixIsSelected ∧ s.runnerPrefixIsDefault) then
      match stopScan s.umuController s.threadsCount with
      | some i => [i]
      | none => []
    else []
  else []

/-- Modelled from the spec: `NeroRunner::Stop` is not part of the two source
files under review; per §4.5 a single `Stop()` issues a prefix-wide kill, so
all running slots of the prefix terminate as soon as at least one controller
is stopped. -/
def groupKillSurvivors (runs : List Int) (stopTargets : List Nat) : List Int :=
  if stopTargets.isEmpty then runs else []

/-! ## Shortcut rename (claim C7)

`prefixSettings_result`, accepted-dialog rename branch
(neromanager.cpp:961-977). -/

/-- Cached icon path `<root>/.icoCache/<name>-<hash>.png`
(neromanager.cpp:966-974). -/
def icoFileName (pfxRoot name hash : Str) : Str :=
  pfxRoot ++ str "/.icoCache/" ++ name ++ [ '-' ] ++ hash ++ str ".png"

/-- Models `NeroFS::GetCurrentShortcutsMap().value(name)`: the `Shortcuts` group is
stored hash → display name; the map getter inverts it, so the lookup finds
the first hash bound to `name` (empty string when absent, like `QMap`). -/
def shortcutsNameToHash (shortcutsCfg : List (Str × Str)) (name : Str) : Str :=
  (((shortcutsCfg.find? (fun p => p.2 == name)).map (·.1)).getD [])

/-- Joint result of the rename branch. -/
structure RenameEffect where
  /-- The `Shortcuts` group (hash → display name) after the rename. -/
  shortcutsCfg : List (Str × Str)
  /-- The icon-cache directory contents after the rename. -/
  icoFiles : List Str
  /-- The live controller list (untouched by the handler). -/
  controllers : List (Option RunCtrl)
deriving DecidableEq

/-- The rename branch of `prefixSettings_result` (neromanager.cpp:961-977):
when the edited name differs, rewrite the settings entry under the same hash
key with the new name, and rename the cached icon file when it exists.  The
controller list is not touched by the handler. -/
def prefixSettingsRename (shortcutsCfg : List (Str × Str)) (icoFiles : List Str)
    (controllers : List (Option RunCtrl)) (oldName newName pfxRoot : Str) : RenameEffect :=
  if newName ≠ oldName then
    { shortcutsCfg :=
        setCfgValue shortcutsCfg (shortcutsNameToHash shortcutsCfg oldName) newName
      icoFiles :=
        if icoFiles.contains
            (icoFileName pfxRoot oldName (shortcutsNameToHash shortcutsCfg oldName)) then
          icoFileName pfxRoot newName (shortcutsNameToHash shortcutsCfg oldName)
            :: icoFiles.erase
                (icoFileName pfxRoot oldName (shortcutsNameToHash shortcutsCfg oldName))
        else icoFiles
      controllers := controllers }
  else
    { shortcutsCfg := shortcutsCfg, icoFiles := icoFiles, controllers := controllers }

/-! ## Shortcut list rendering order (claim C9)

`RenderPrefixList` (neromanager.cpp:222-236): the shortcut names are fetched
from the persisted (insertion-ordered) map and sorted with
`sortedShortcuts.sort(Qt::CaseInsensitive)` at render time. -/

/-- The `Qt::CaseInsensitive` less-or-equal relation on names. -/
def qtCiLe (a b : Str) : Prop := lowerStr a ≤ lowerStr b

/-- Strict version of `qtCiLe`. -/
def qtCiLt (a b : Str) : Prop := lowerStr a < lowerStr b

instance : DecidableRel qtCiLe := fun a b =>
  inferInstanceAs (Decidable (lowerStr a ≤ lowerStr b))

instance : IsTotal Str qtCiLe := ⟨fun a b => le_total (lowerStr a) (lowerStr b)⟩

instance : IsTrans Str qtCiLe := ⟨fun _ _ _ h h2 => le_trans h h2⟩

instance : IsAntisymm Str qtCiLt := ⟨fun _ _ h h2 => absurd h2 (lt_asymm h)⟩

/-- Models `sortedShortcuts.sort(Qt::CaseInsensitive)` (neromanager.cpp:231): the
rendered order of the display names. -/
def renderShortcutOrder (shortcuts : List Str) : List Str :=
  List.insertionSort qtCiLe shortcuts

/-- Follows the words of the spec: "lexicographically sorted by display
name" — a plain lexicographic (case-sensitive) sort, for comparison with the
order the source actually computes. -/
def specLexOrder (shortcuts : List Str) : List Str :=
  List.insertionSort (· ≤ ·) shortcuts

/-! ## Manager preferences dialog (claim C10)

`NeroManagerPreferences::~NeroManagerPreferences`
(neropreferences.cpp:43-52). -/

/-- The write-back in the destructor: only when the dialog was accepted are the
three keys copied from the dialog widgets into the settings store. -/
def prefsDestructorWriteBack (accepted : Bool)
    (shortcutHideChecked defaultPrefixStartChecked : Bool) (defaultPfxText : Str)
    (cfg : List (Str × Str)) : List (Str × Str) :=
  if accepted then
    setCfgValue
      (setCfgValue
        (setCfgValue cfg (str "ShortcutHidesManager") (boolStr shortcutHideChecked))
        (str "RunWithDefaultPrefix") (boolStr defaultPrefixStartChecked))
      (str "DefaultPrefix") defaultPfxText
  else cfg

/-! ## Helper lemmas on the settings/environment store -/

theorem cfgLookup_set_self (store : List (Str × Str)) (k v : Str) :
    cfgLookup (setCfgValue store k v) k = some v := by
  induction store with
  | nil => simp [setCfgValue, cfgLookup, List.find?]
  | cons p rest ih =>
    by_cases hp : (p.1 == k) = true
    · simp [setCfgValue, hp, cfgLookup, List.find?]
    · simp only [setCfgValue, hp, if_false, Bool.false_eq_true]
      simpa [cfgLookup, List.find?_cons, hp] using ih

theorem cfgLookup_set_ne (store : List (Str × Str)) (k v k2 : Str)
    (h : (k == k2) = false) :
    cfgLookup (setCfgValue store k v) k2 = cfgLookup store k2 := by
  induction store with
  | nil => simp [setCfgValue, cfgLookup, List.find?, h]
  | cons p rest ih =>
    by_cases hp : (p.1 == k) = true
    · have hk : p.1 = k := by simpa using hp
      simp [setCfgValue, hp, cfgLookup, List.find?_cons, h, hk]
    · by_cases h2 : (p.1 == k2) = true
      · simp [setCfgValue, hp, cfgLookup, List.find?_cons, h2]
      · simp only [setCfgValue, hp, if_false, Bool.false_eq_true]
        simpa [cfgLookup, List.find?_cons, h2] using ih

theorem setCfgValue_keys (store : List (Str × Str)) (k v : Str)
    (h : store.any (fun p => p.1 == k) = true) :
    (setCfgValue store k v).map (·.1) = store.map (·.1) := by
  induction store with
  | nil => simp at h
  | cons p rest ih =>
    by_cases hp : (p.1 == k) = true
    · have hk : p.1 = k := by simpa using hp
      simp [setCfgValue, hp, hk]
    · have hrest : rest.any (fun p => p.1 == k) = true := by
        simpa [List.any_cons, hp] using h
      simp [setCfgValue, hp, ih hrest]

theorem mem_setCfgValue (store : List (Str × Str)) (k v : Str)
    (h : store.any (fun p => p.1 == k) = true) :
    (k, v) ∈ setCfgValue store k v := by
  induction store with
  | nil => simp at h
  | cons p rest ih =>
    by_cases hp : (p.1 == k) = true
    · simp [setCfgValue, hp]
    · have hrest : rest.any (fun p => p.1 == k) = true := by
        simpa [List.any_cons, hp] using h
      simp [setCfgValue, hp, ih hrest]

/-! ## Claim theorems -/

/-- C8: both the prefix-creation flow and the tricks-installation flow pass
the launcher subprocess an environment containing `WINEPREFIX` set to the
prefix directory, `GAMEID` set to the constant `"0"`, `PROTONPATH` set to
the runner directory (for tricks: the `CurrentRunner` prefix setting), and
`PROTON_USE_XALIA` set to `"0"`. -/
theorem launch_env_vars (base : List (Str × Str))
    (pfxRoot protonsRoot newPfx runner currentPfx : Str)
    (settingsMap : List (Str × Str)) :
    (cfgLookup (createPrefixEnv base pfxRoot protonsRoot newPfx runner) (str "WINEPREFIX")
        = some (pfxRoot ++ [ '/' ] ++ newPfx)
      ∧ cfgLookup (createPrefixEnv base pfxRoot protonsRoot newPfx runner) (str "GAMEID")
        = some (str "0")
      ∧ cfgLookup (createPrefixEnv base pfxRoot protonsRoot newPfx runner) (str "PROTONPATH")
        = some (protonsRoot ++ [ '/' ] ++ runner)
      ∧ cfgLookup (createPrefixEnv base pfxRoot protonsRoot newPfx runner)
          (str "PROTON_USE_XALIA") = some (str "0"))
    ∧ (cfgLookup (tricksInstallEnv base pfxRoot protonsRoot currentPfx settingsMap)
          (str "WINEPREFIX") = some (pfxRoot ++ [ '/' ] ++ currentPfx)
      ∧ cfgLookup (tricksInstallEnv base pfxRoot protonsRoot currentPfx settingsMap)
          (str "GAMEID") = some (str "0")
      ∧ cfgLookup (tricksInstallEnv base pfxRoot protonsRoot currentPfx settingsMap)
          (str "PROTONPATH")
        = some (protonsRoot ++ [ '/' ] ++ (cfgLookup settingsMap (str "CurrentRunner")).getD [])
      ∧ cfgLookup (tricksInstallEnv base pfxRoot protonsRoot currentPfx settingsMap)
          (str "PROTON_USE_XALIA") = some (str "0")) := by
  refine ⟨⟨?_, ?_, ?_, ?_⟩, ?_, ?_, ?_, ?_⟩ <;>
    simp only [createPrefixEnv, tricksInstallEnv, buildLaunchEnv] <;>
    first
      | rw [cfgLookup_set_self]
      | rw [cfgLookup_set_ne _ _ _ _ (by decide), cfgLookup_set_self]
      | rw [cfgLookup_set_ne _ _ _ _ (by decide), cfgLookup_set_ne _ _ _ _ (by decide),
            cfgLookup_set_self]
      | rw [cfgLookup_set_ne _ _ _ _ (by decide), cfgLookup_set_ne _ _ _ _ (by decide),
            cfgLookup_set_ne _ _ _ _ (by decide), cfgLookup_set_self]

/-- C10: closing the manager preferences dialog without accepting leaves the
settings store unchanged; on accept the three keys are written back from the
dialog widgets. -/
theorem prefs_writeback_only_on_accept (hide start : Bool) (dpfx : Str)
    (cfg : List (Str × Str)) :
    prefsDestructorWriteBack false hide start dpfx cfg = cfg
    ∧ (cfgLookup (prefsDestructorWriteBack true hide start dpfx cfg)
          (str "ShortcutHidesManager") = some (boolStr hide)
      ∧ cfgLookup (prefsDestructorWriteBack true hide start dpfx cfg)
          (str "RunWithDefaultPrefix") = some (boolStr start)
      ∧ cfgLookup (prefsDestructorWriteBack true hide start dpfx cfg)
          (str "DefaultPrefix") = some dpfx) := by
  refine ⟨rfl, ?_, ?_, ?_⟩ <;>
    simp only [prefsDestructorWriteBack, if_pos] <;>
    first
      | rw [cfgLookup_set_self]
      | rw [cfgLookup_set_ne _ _ _ _ (by decide), cfgLookup_set_self]
      | rw [cfgLookup_set_ne _ _ _ _ (by decide), cfgLookup_set_ne _ _ _ _ (by decide),
            cfgLookup_set_self]

/-- C5: the hash returned by the collision re-roll loop is never an existing
hash of the owning prefix, so within one prefix the generator never hands
out a duplicate identity. -/
theorem generateUniqueHash_fresh (existingHashes : List Str) (cands : Nat → Str)
    (h : ∃ n, cands n ∉ existingHashes) :
    generateUniqueHash existingHashes cands h ∉ existingHashes :=
  Nat.find_spec h

/-- C5 witness: a concrete run of the re-roll loop against one existing
hash. -/
theorem generateUniqueHash_fresh_witness :
    generateUniqueHash [str "d41d8cd98f00b204"] (fun _ => str "9e107d9d372bb682")
        ⟨0, by decide⟩ ∉ [str "d41d8cd98f00b204"] :=
  generateUniqueHash_fresh [str "d41d8cd98f00b204"] (fun _ => str "9e107d9d372bb682")
    ⟨0, by decide⟩

/-- C1 counterexample: with exit code 1 and the `system.reg` marker present,
`CreatePrefix` takes the failure-notification branch and still commits the
new prefix to the registry store, contradicting the claim that no commit
occurs on nonzero exit. -/
theorem createPrefix_commit_on_nonzero_exit :
    (1 : Int) ≠ 0
    ∧ (createPrefixFinish 1 true [] (str "Test") (str "GE-Proton9-27")).notifiedFailure = true
    ∧ (str "Test", str "GE-Proton9-27")
        ∈ (createPrefixFinish 1 true [] (str "Test") (str "GE-Proton9-27")).registryPrefixes := by
  refine ⟨by decide, by decide, by decide⟩

/-- C1 amended: the new prefix is committed to the registry store iff the
`system.reg` marker exists after the launcher run, independently of the exit
code; the exit code only selects the success or failure notification. -/
theorem createPrefix_commit_iff_sysreg (exitCode : Int) (sysRegExists : Bool)
    (prefixes : List (Str × Str)) (newPfx runner : Str) :
    ((newPfx, runner)
        ∈ (createPrefixFinish exitCode sysRegExists prefixes newPfx runner).registryPrefixes
      ↔ (sysRegExists = true ∨ (newPfx, runner) ∈ prefixes))
    ∧ (sysRegExists = false →
        (createPrefixFinish exitCode sysRegExists prefixes newPfx runner).registryPrefixes
          = prefixes)
    ∧ ((createPrefixFinish exitCode sysRegExists prefixes newPfx runner).notifiedSuccess = true
        ↔ exitCode = 0)
    ∧ ((createPrefixFinish exitCode sysRegExists prefixes newPfx runner).notifiedFailure = true
        ↔ exitCode ≠ 0) := by
  cases sysRegExists <;> simp [createPrefixFinish]

/-- C1 amended witness: a successful run with the marker present commits the
prefix, and omitting the marker leaves the store unchanged. -/
theorem createPrefix_commit_iff_sysreg_witness :
    ((str "Test", str "GE-Proton9-27")
        ∈ (createPrefixFinish 0 true [] (str "Test") (str "GE-Proton9-27")).registryPrefixes
      ↔ (true = true ∨ (str "Test", str "GE-Proton9-27") ∈ ([] : List (Str × Str))))
    ∧ (true = false →
        (createPrefixFinish 0 true [] (str "Test") (str "GE-Proton9-27")).registryPrefixes = [])
    ∧ ((createPrefixFinish 0 true [] (str "Test") (str "GE-Proton9-27")).notifiedSuccess = true
        ↔ (0 : Int) = 0)
    ∧ ((createPrefixFinish 0 true [] (str "Test") (str "GE-Proton9-27")).notifiedFailure = true
        ↔ (0 : Int) ≠ 0) :=
  createPrefix_commit_iff_sysreg 0 true [] (str "Test") (str "GE-Proton9-27")

theorem filterContains_ne_nil (l : List Str) (pat : Str) :
    filterContains l pat ≠ [] ↔ ∃ t ∈ l, pat <:+: t := by
  unfold filterContains
  rw [Ne, List.filter_eq_nil_iff]
  push_neg
  simp

theorem filterContains_winetricks_cons (l : List Str) :
    (filterContains (str "winetricks" :: l) (str "dotnet") ≠ [])
      ↔ ∃ t ∈ l, str "dotnet" <:+: t := by
  rw [filterContains_ne_nil]
  constructor
  · rintro ⟨t, ht, hsub⟩
    rcases List.mem_cons.mp ht with rfl | ht2
    · exact absurd hsub (by decide)
    · exact ⟨t, ht2, hsub⟩
  · rintro ⟨t, ht, hsub⟩
    exact ⟨t, List.mem_cons_of_mem _ ht, hsub⟩

/-- C4: for a non-empty requested verb list, both the prefix-creation flow
and the tricks-install flow hand `/bin/sh` the arguments `["-c", cmd]` where
`cmd` carries the two registry-delete cleanup steps before the winetricks
invocation exactly when some requested verb contains `"dotnet"` (and, for
the tricks flow, no already-installed verb does); otherwise `cmd` is the
plain winetricks invocation; in both cases the verb list is prefixed with
`"winetricks"`.  The final conjunct separates the two shapes. -/
theorem tricks_command_cleanup_iff (umu : Str) (installedVerbs tricksToInstall : List Str) :
    (createPrefixShArgs umu tricksToInstall =
        if ∃ t ∈ tricksToInstall, str "dotnet" <:+: t then
          [str "-c",
            dotnetCleanupSteps umu ++ plainTricksCmd umu (str "winetricks" :: tricksToInstall)]
        else
          [str "-c", plainTricksCmd umu (str "winetricks" :: tricksToInstall)])
    ∧ (tricksWindowShArgs umu installedVerbs tricksToInstall =
        if (∀ i ∈ installedVerbs, ¬str "dotnet" <:+: i)
            ∧ ∃ t ∈ tricksToInstall, str "dotnet" <:+: t then
          [str "-c",
            dotnetCleanupSteps umu ++ plainTricksCmd umu (str "winetricks" :: tricksToInstall)]
        else
          [str "-c", plainTricksCmd umu (str "winetricks" :: tricksToInstall)])
    ∧ dotnetCleanupSteps umu ++ plainTricksCmd umu (str "winetricks" :: tricksToInstall)
        ≠ plainTricksCmd umu (str "winetricks" :: tricksToInstall) := by
  refine ⟨?_, ?_, ?_⟩
  · unfold createPrefixShArgs
    by_cases hc : ∃ t ∈ tricksToInstall, str "dotnet" <:+: t
    · rw [if_pos ((filterContains_winetricks_cons tricksToInstall).mpr hc), if_pos hc]
    · rw [if_neg fun h => hc ((filterContains_winetricks_cons tricksToInstall).mp h),
          if_neg hc]
  · unfold tricksWindowShArgs
    by_cases hinst : ∀ i ∈ installedVerbs, ¬str "dotnet" <:+: i
    · have hie : (filterContains installedVerbs (str "dotnet")).isEmpty = true := by
        rw [List.isEmpty_iff]
        by_contra hne
        rcases (filterContains_ne_nil installedVerbs (str "dotnet")).mp hne with ⟨i, hi, hs⟩
        exact hinst i hi hs
      by_cases hc : ∃ t ∈ tricksToInstall, str "dotnet" <:+: t
      · have hve : (filterContains (str "winetricks" :: tricksToInstall)
            (str "dotnet")).isEmpty = false := by
          rw [Bool.eq_false_iff, Ne, List.isEmpty_iff]
          exact (filterContains_winetricks_cons tricksToInstall).mpr hc
        rw [if_pos (by rw [hie, hve]; rfl), if_pos ⟨hinst, hc⟩]
      · have hve : (filterContains (str "winetricks" :: tricksToInstall)
            (str "dotnet")).isEmpty = true := by
          rw [List.isEmpty_iff]
          by_contra hne
          exact hc ((filterContains_winetricks_cons tricksToInstall).mp hne)
        rw [if_neg (by rw [hie, hve]; simp), if_neg (fun h => hc h.2)]
    · have hie : (filterContains installedVerbs (str "dotnet")).isEmpty = false := by
        rw [Bool.eq_false_iff, Ne, List.isEmpty_iff,
          ← Ne, filterContains_ne_nil]
        push_neg at hinst
        rcases hinst with ⟨i, hi, hs⟩
        exact ⟨i, hi, hs⟩
      rw [if_neg (by rw [hie]; simp), if_neg (fun h => hinst h.1)]
  · intro h
    have h2 := congrArg List.length h
    rw [List.length_append] at h2
    have h3 : 0 <
        (str " reg delete \"HKLM\\Software\\Wow6432Node\\Microsoft\\.NETFramework\" /f && ").length := by
      decide
    have h4 : 0 < (dotnetCleanupSteps umu).length := by
      simp only [dotnetCleanupSteps, List.length_append]
      omega
    omega

/-- C4 witness: the round-trip of the spec — requesting
`["dotnet48","vcrun2019"]` yields the cleanup-prefixed command, requesting
`["vcrun2019"]` alone yields the plain command. -/
theorem tricks_command_cleanup_iff_witness :
    createPrefixShArgs (str "umu-run") [str "dotnet48", str "vcrun2019"]
      = [str "-c", dotnetCleanupSteps (str "umu-run")
          ++ plainTricksCmd (str "umu-run") [str "winetricks", str "dotnet48", str "vcrun2019"]]
    ∧ createPrefixShArgs (str "umu-run") [str "vcrun2019"]
      = [str "-c", plainTricksCmd (str "umu-run") [str "winetricks", str "vcrun2019"]] := by
  constructor
  · have h := (tricks_command_cleanup_iff (str "umu-run") [] [str "dotnet48", str "vcrun2019"]).1
    rw [if_pos (by decide)] at h
    exact h
  · have h := (tricks_command_cleanup_iff (str "umu-run") [] [str "vcrun2019"]).1
    rw [if_neg (by decide)] at h
    exact h

theorem stopScan_finds_live (ctrls : List (Option RunCtrl)) (n : Nat)
    (h : ∃ i, i < n ∧ (ctrls.getD i none).isSome = true) :
    ∃ j, stopScan ctrls n = some j ∧ (ctrls.getD j none).isSome = true := by
  induction n with
  | zero =>
    rcases h with ⟨i, hi, _⟩
    omega
  | succ n ih =>
    cases hc : ctrls.getD n none with
    | some c =>
      refine ⟨n, ?_, by rw [hc]; rfl⟩
      simp only [stopScan]
      rw [hc]
    | none =>
      have h2 : ∃ i, i < n ∧ (ctrls.getD i none).isSome = true := by
        rcases h with ⟨i, hi, hs⟩
        rcases Nat.lt_succ_iff_lt_or_eq.mp hi with hlt | rfl
        · exact ⟨i, hlt, hs⟩
        · rw [hc] at hs
          simp at hs
      rcases ih h2 with ⟨j, hj, hs⟩
      refine ⟨j, ?_, hs⟩
      simp only [stopScan]
      rw [hc]
      exact hj

/-- C2: when the back button acts as stop-all (something is running and the
launches did not happen on the default-prefix page) and at least one
controller slot is live, `Stop()` is issued to exactly one live controller
— the first non-null one the descending scan finds — and under the
group-kill semantics of the spec that single stop terminates every running
slot of the prefix. -/
theorem backButton_stopAll_single_stop (s : ManagerState)
    (hrun : s.currentlyRunning ≠ [])
    (hview : ¬(s.prefixIsSelected ∧ s.runnerPrefixIsDefault))
    (hlive : ∃ i, i < s.threadsCount ∧ (s.umuController.getD i none).isSome = true) :
    (∃ j, backButtonStopTargets s = [j] ∧ (s.umuController.getD j none).isSome = true)
    ∧ groupKillSurvivors s.currentlyRunning (backButtonStopTargets s) = [] := by
  rcases stopScan_finds_live s.umuController s.threadsCount hlive with ⟨j, hj, hs⟩
  have htargets : backButtonStopTargets s = [j] := by
    unfold backButtonStopTargets
    rw [if_pos (List.length_pos.mpr hrun), if_pos hview, hj]
  refine ⟨⟨j, htargets, hs⟩, ?_⟩
  rw [htargets]
  rfl

/-- C2 witness: a prefix running two slots where the controller at index 0
has already been drained; the scan stops the one at index 1. -/
theorem backButton_stopAll_single_stop_witness :
    (∃ j, backButtonStopTargets
        { currentlyRunning := [0, -1]
          threadsCount := 2
          umuController := [none, some ⟨0, str "0123abcd", true⟩]
          oneOffsRunning := [str "setup.exe"]
          sysTrayTooltip := neutralTooltip
          prefixSettingsBtnEnabled := false
          prefixTricksBtnEnabled := false
          prefixIsSelected := false
          runnerPrefixIsDefault := false } = [j]
      ∧ (([none, some ⟨0, str "0123abcd", true⟩] : List (Option RunCtrl)).getD j none).isSome
          = true)
    ∧ groupKillSurvivors [0, -1] (backButtonStopTargets
        { currentlyRunning := [0, -1]
          threadsCount := 2
          umuController := [none, some ⟨0, str "0123abcd", true⟩]
          oneOffsRunning := [str "setup.exe"]
          sysTrayTooltip := neutralTooltip
          prefixSettingsBtnEnabled := false
          prefixTricksBtnEnabled := false
          prefixIsSelected := false
          runnerPrefixIsDefault := false }) = [] :=
  backButton_stopAll_single_stop _ (by decide) (by decide) ⟨1, by decide, by decide⟩

/-- C6: clicking play on a shortcut that is not running, whose target path
(after mapping `"C:/"` into the drive_c directory of the prefix) does not
exist on disk, shows the file-not-found message and changes nothing: the
returned state is the input state, so `currentlyRunning`, `threadsCount`
and the controller list are untouched and no controller is created. -/
theorem play_missing_target_no_launch (s : ManagerState) (slot : Int)
    (hash label shortcutPath pfxRoot currentPfx : Str) (fsExists : Str → Bool)
    (hnotrun : slot ∉ s.currentlyRunning)
    (hmissing : fsExists (strReplace shortcutPath (str "C:/")
        (pfxRoot ++ [ '/' ] ++ currentPfx ++ str "/drive_c/")) = false) :
    prefixShortcutPlayButtons_clicked s slot hash label shortcutPath pfxRoot currentPfx fsExists
      = (s, PlayOutcome.fileNotFound) := by
  unfold prefixShortcutPlayButtons_clicked
  rw [if_neg (by simpa using hnotrun), if_neg (by simp only [Bool.not_eq_true]; simpa using hmissing)]

/-- C6 witness: a concrete state and a filesystem on which the mapped target
is absent; the click leaves the state intact and reports file-not-found. -/
theorem play_missing_target_no_launch_witness :
    prefixShortcutPlayButtons_clicked
        { currentlyRunning := []
          threadsCount := 0
          umuController := []
          oneOffsRunning := []
          sysTrayTooltip := neutralTooltip
          prefixSettingsBtnEnabled := true
          prefixTricksBtnEnabled := true
          prefixIsSelected := true
          runnerPrefixIsDefault := false }
        3 (str "0123abcd") (str "Game") (str "C:/Games/game.exe")
        (str "/home/user/.nero") (str "Test") (fun _ => false)
      = ({ currentlyRunning := []
           threadsCount := 0
           umuController := []
           oneOffsRunning := []
           sysTrayTooltip := neutralTooltip
           prefixSettingsBtnEnabled := true
           prefixTricksBtnEnabled := true
           prefixIsSelected := true
           runnerPrefixIsDefault := false }, PlayOutcome.fileNotFound) :=
  play_missing_target_no_launch _ 3 (str "0123abcd") (str "Game") (str "C:/Games/game.exe")
    (str "/home/user/.nero") (str "Test") (fun _ => false) (by decide) rfl

/-- C3: the tray tooltip recomputed by `handleUmuResults` after a run
completes is the neutral text when zero slots remain, names the single
remaining app when exactly one remains, and shows the numeric count when
two or more remain; and the tooltip recomputed by the launch-start handler
names the app at one running slot and shows the count at two or more —
the boundary is exactly the 1-to-2 transition in both directions. -/
theorem aggregate_tooltip_boundaries (s : ManagerState) (buttonSlot slot : Int)
    (threadSlot : Nat) (shortcutLabels : Int → Str)
    (runningName currentPfx hash label shortcutPath pfxRoot : Str)
    (fsExists : Str → Bool) (s2 s3 : ManagerState) (outcome : PlayOutcome)
    (hs2 : s2 = handleUmuResults s buttonSlot threadSlot shortcutLabels runningName currentPfx)
    (hs3 : (s3, outcome) = prefixShortcutPlayButtons_clicked s slot hash label shortcutPath
        pfxRoot currentPfx fsExists)
    (hnot : slot ∉ s.currentlyRunning)
    (hexists : fsExists (strReplace shortcutPath (str "C:/")
        (pfxRoot ++ [ '/' ] ++ currentPfx ++ str "/drive_c/")) = true) :
    (s2.currentlyRunning.length = 0 → s2.sysTrayTooltip = neutralTooltip)
    ∧ (s2.currentlyRunning.length = 1 →
        s2.sysTrayTooltip =
          if s2.currentlyRunning.headD 0 ≠ -1 then
            runningOneTooltip currentPfx (shortcutLabels (s2.currentlyRunning.headD 0))
          else runningOneTooltip currentPfx (s2.oneOffsRunning.headD []))
    ∧ (2 ≤ s2.currentlyRunning.length →
        s2.sysTrayTooltip = runningManyTooltip currentPfx s2.currentlyRunning.length)
    ∧ s3.currentlyRunning.length = s.currentlyRunning.length + 1
    ∧ (s3.currentlyRunning.length = 1 →
        s3.sysTrayTooltip = runningOneTooltip currentPfx label)
    ∧ (2 ≤ s3.currentlyRunning.length →
        s3.sysTrayTooltip = runningManyTooltip currentPfx s3.currentlyRunning.length) := by
  have hcomp : (s2.currentlyRunning.length = 0 → s2.sysTrayTooltip = neutralTooltip)
      ∧ (s2.currentlyRunning.length = 1 →
          s2.sysTrayTooltip =
            if s2.currentlyRunning.headD 0 ≠ -1 then
              runningOneTooltip currentPfx (shortcutLabels (s2.currentlyRunning.headD 0))
            else runningOneTooltip currentPfx (s2.oneOffsRunning.headD []))
      ∧ (2 ≤ s2.currentlyRunning.length →
          s2.sysTrayTooltip = runningManyTooltip currentPfx s2.currentlyRunning.length) := by
    subst hs2
    unfold handleUmuResults
    by_cases h0 : (s.currentlyRunning.erase buttonSlot).length = 0
    · rw [if_pos h0]
      exact ⟨fun _ => rfl, fun h1 => by simp at h1, fun h2 => by simp at h2⟩
    · by_cases h1 : (s.currentlyRunning.erase buttonSlot).length = 1
      · rw [if_neg h0, if_pos h1]
        refine ⟨fun hz => absurd hz h0, fun _ => ?_, fun h2 => ?_⟩
        · by_cases hh : (s.currentlyRunning.erase buttonSlot).headD 0 ≠ -1
          · simp only [hh, if_true]
          · simp only [hh, if_false]
        · rw [h1] at h2
          omega
      · rw [if_neg h0, if_neg h1]
        exact ⟨fun hz => absurd hz h0, fun ho => absurd ho h1, fun _ => rfl⟩
  have hstart : s3 = { s with
      prefixSettingsBtnEnabled := false
      prefixTricksBtnEnabled := false
      threadsCount := s.threadsCount + 1
      currentlyRunning := s.currentlyRunning ++ [slot]
      sysTrayTooltip :=
        if (s.currentlyRunning ++ [slot]).length > 1 then
          runningManyTooltip currentPfx (s.currentlyRunning ++ [slot]).length
        else runningOneTooltip currentPfx label
      umuController := s.umuController ++
        [some ⟨slot, hash, decide ((s.currentlyRunning ++ [slot]).length > 1)⟩] } := by
    have h3 : s3 = (prefixShortcutPlayButtons_clicked s slot hash label shortcutPath
        pfxRoot currentPfx fsExists).fst := by
      rw [← hs3]
    unfold prefixShortcutPlayButtons_clicked at h3
    rw [if_neg (by simpa using hnot), if_pos hexists] at h3
    exact h3
  refine ⟨hcomp.1, hcomp.2.1, hcomp.2.2, ?_, ?_, ?_⟩
  · rw [hstart]
    simp
  · intro h1
    rw [hstart] at h1 ⊢
    simp only [List.length_append, List.length_cons, List.length_nil] at h1
    have hz : s.currentlyRunning.length = 0 := by omega
    simp [List.length_append, hz]
  · intro h2
    rw [hstart] at h2 ⊢
    simp only [List.length_append, List.length_cons, List.length_nil] at h2
    have hp : (s.currentlyRunning ++ [slot]).length > 1 := by
      simp only [List.length_append, List.length_cons, List.length_nil]
      omega
    simp only [hp, if_true]

/-- C3 witness: from two running shortcut slots, one completion leaves one
slot (tooltip names it) and one further launch start reaches three slots
(tooltip shows the count). -/
theorem aggregate_tooltip_boundaries_witness :
    ((handleUmuResults sampleTwoRunning 0 0 (fun _ => str "AppB") (str "") (str "Test")).currentlyRunning.length = 0 →
      (handleUmuResults sampleTwoRunning 0 0 (fun _ => str "AppB") (str "") (str "Test")).sysTrayTooltip = neutralTooltip)
    ∧ ((handleUmuResults sampleTwoRunning 0 0 (fun _ => str "AppB") (str "") (str "Test")).currentlyRunning.length = 1 →
        (handleUmuResults sampleTwoRunning 0 0 (fun _ => str "AppB") (str "") (str "Test")).sysTrayTooltip =
          if (handleUmuResults sampleTwoRunning 0 0 (fun _ => str "AppB") (str "") (str "Test")).currentlyRunning.headD 0 ≠ -1 then
            runningOneTooltip (str "Test")
              ((fun _ => str "AppB")
                ((handleUmuResults sampleTwoRunning 0 0 (fun _ => str "AppB") (str "") (str "Test")).currentlyRunning.headD 0))
          else runningOneTooltip (str "Test")
            ((handleUmuResults sampleTwoRunning 0 0 (fun _ => str "AppB") (str "") (str "Test")).oneOffsRunning.headD []))
    ∧ (2 ≤ (handleUmuResults sampleTwoRunning 0 0 (fun _ => str "AppB") (str "") (str "Test")).currentlyRunning.length →
        (handleUmuResults sampleTwoRunning 0 0 (fun _ => str "AppB") (str "") (str "Test")).sysTrayTooltip =
          runningManyTooltip (str "Test")
            (handleUmuResults sampleTwoRunning 0 0 (fun _ => str "AppB") (str "") (str "Test")).currentlyRunning.length)
    ∧ (prefixShortcutPlayButtons_clicked sampleTwoRunning 2 (str "cc33") (str "AppC")
        (str "C:/x.exe") (str "/p") (str "Test") (fun _ => true)).fst.currentlyRunning.length
        = sampleTwoRunning.currentlyRunning.length + 1
    ∧ ((prefixShortcutPlayButtons_clicked sampleTwoRunning 2 (str "cc33") (str "AppC")
          (str "C:/x.exe") (str "/p") (str "Test") (fun _ => true)).fst.currentlyRunning.length = 1 →
        (prefixShortcutPlayButtons_clicked sampleTwoRunning 2 (str "cc33") (str "AppC")
          (str "C:/x.exe") (str "/p") (str "Test") (fun _ => true)).fst.sysTrayTooltip =
          runningOneTooltip (str "Test") (str "AppC"))
    ∧ (2 ≤ (prefixShortcutPlayButtons_clicked sampleTwoRunning 2 (str "cc33") (str "AppC")
          (str "C:/x.exe") (str "/p") (str "Test") (fun _ => true)).fst.currentlyRunning.length →
        (prefixShortcutPlayButtons_clicked sampleTwoRunning 2 (str "cc33") (str "AppC")
          (str "C:/x.exe") (str "/p") (str "Test") (fun _ => true)).fst.sysTrayTooltip =
          runningManyTooltip (str "Test")
            (prefixShortcutPlayButtons_clicked sampleTwoRunning 2 (str "cc33") (str "AppC")
              (str "C:/x.exe") (str "/p") (str "Test") (fun _ => true)).fst.currentlyRunning.length) :=
  aggregate_tooltip_boundaries sampleTwoRunning 0 2 0 (fun _ => str "AppB") (str "")
    (str "Test") (str "cc33") (str "AppC") (str "C:/x.exe") (str "/p") (fun _ => true)
    _ _ _ rfl rfl (by decide) rfl

theorem find?_name_of_nodup (cfg : List (Str × Str)) (hash name : Str)
    (hmem : (hash, name) ∈ cfg) (hnodup : (cfg.map (·.2)).Nodup) :
    cfg.find? (fun p => p.2 == name) = some (hash, name) := by
  induction cfg with
  | nil => simp at hmem
  | cons p rest ih =>
    rcases List.mem_cons.mp hmem with rfl | hrest
    · simp [List.find?_cons]
    · have hnames : name ∈ rest.map (·.2) :=
        List.mem_map.mpr ⟨(hash, name), hrest, rfl⟩
      rw [List.map_cons, List.nodup_cons] at hnodup
      have hp2 : (p.2 == name) = false := by
        have : p.2 ≠ name := fun he => hnodup.1 (he ▸ hnames)
        simpa using this
      rw [List.find?_cons]
      rw [hp2]
      exact ih hrest hnodup.2

/-- C7: renaming a shortcut through the settings dialog rewrites the
settings entry under the same hash key with the new display name (the hash
keys of the store are unchanged), renames the cached icon file from
`<oldName>-<hash>.png` to `<newName>-<hash>.png` when it exists (and leaves
the cache alone when it does not), and leaves the live controller bindings
untouched. -/
theorem rename_preserves_hash (shortcutsCfg : List (Str × Str)) (icoFiles : List Str)
    (controllers : List (Option RunCtrl)) (oldName newName pfxRoot hash : Str)
    (hmem : (hash, oldName) ∈ shortcutsCfg)
    (hnodup : (shortcutsCfg.map (·.2)).Nodup)
    (hne : newName ≠ oldName) :
    (hash, newName)
      ∈ (prefixSettingsRename shortcutsCfg icoFiles controllers oldName newName
          pfxRoot).shortcutsCfg
    ∧ (prefixSettingsRename shortcutsCfg icoFiles controllers oldName newName
        pfxRoot).shortcutsCfg.map (·.1) = shortcutsCfg.map (·.1)
    ∧ (icoFiles.contains (icoFileName pfxRoot oldName hash) = true →
        (prefixSettingsRename shortcutsCfg icoFiles controllers oldName newName
          pfxRoot).icoFiles
          = icoFileName pfxRoot newName hash
              :: icoFiles.erase (icoFileName pfxRoot oldName hash))
    ∧ (icoFiles.contains (icoFileName pfxRoot oldName hash) = false →
        (prefixSettingsRename shortcutsCfg icoFiles controllers oldName newName
          pfxRoot).icoFiles = icoFiles)
    ∧ (prefixSettingsRename shortcutsCfg icoFiles controllers oldName newName
        pfxRoot).controllers = controllers := by
  have hhash : shortcutsNameToHash shortcutsCfg oldName = hash := by
    unfold shortcutsNameToHash
    rw [find?_name_of_nodup shortcutsCfg hash oldName hmem hnodup]
    rfl
  have hany : shortcutsCfg.any (fun p => p.1 == hash) = true :=
    List.any_eq_true.mpr ⟨(hash, oldName), hmem, by simp⟩
  unfold prefixSettingsRename
  rw [if_pos hne, hhash]
  refine ⟨mem_setCfgValue shortcutsCfg hash newName hany,
    setCfgValue_keys shortcutsCfg hash newName hany, ?_, ?_, rfl⟩
  · intro hico
    rw [if_pos hico]
  · intro hico
    rw [hico]
    rfl

/-- C7 witness: renaming `"Old Game"` to `"New Game"` in a two-shortcut
store with the icon file present. -/
theorem rename_preserves_hash_witness :
    (str "1a2b3c", str "New Game")
      ∈ (prefixSettingsRename [(str "1a2b3c", str "Old Game"), (str "9f8e7d", str "Other")]
          [icoFileName (str "/p/Test") (str "Old Game") (str "1a2b3c")]
          [some ⟨0, str "1a2b3c", false⟩] (str "Old Game") (str "New Game")
          (str "/p/Test")).shortcutsCfg
    ∧ (prefixSettingsRename [(str "1a2b3c", str "Old Game"), (str "9f8e7d", str "Other")]
        [icoFileName (str "/p/Test") (str "Old Game") (str "1a2b3c")]
        [some ⟨0, str "1a2b3c", false⟩] (str "Old Game") (str "New Game")
        (str "/p/Test")).shortcutsCfg.map (·.1)
      = [(str "1a2b3c", str "Old Game"), (str "9f8e7d", str "Other")].map (·.1)
    ∧ ([icoFileName (str "/p/Test") (str "Old Game") (str "1a2b3c")].contains
          (icoFileName (str "/p/Test") (str "Old Game") (str "1a2b3c")) = true →
        (prefixSettingsRename [(str "1a2b3c", str "Old Game"), (str "9f8e7d", str "Other")]
          [icoFileName (str "/p/Test") (str "Old Game") (str "1a2b3c")]
          [some ⟨0, str "1a2b3c", false⟩] (str "Old Game") (str "New Game")
          (str "/p/Test")).icoFiles
          = icoFileName (str "/p/Test") (str "New Game") (str "1a2b3c")
              :: [icoFileName (str "/p/Test") (str "Old Game") (str "1a2b3c")].erase
                  (icoFileName (str "/p/Test") (str "Old Game") (str "1a2b3c")))
    ∧ ([icoFileName (str "/p/Test") (str "Old Game") (str "1a2b3c")].contains
          (icoFileName (str "/p/Test") (str "Old Game") (str "1a2b3c")) = false →
        (prefixSettingsRename [(str "1a2b3c", str "Old Game"), (str "9f8e7d", str "Other")]
          [icoFileName (str "/p/Test") (str "Old Game") (str "1a2b3c")]
          [some ⟨0, str "1a2b3c", false⟩] (str "Old Game") (str "New Game")
          (str "/p/Test")).icoFiles
          = [icoFileName (str "/p/Test") (str "Old Game") (str "1a2b3c")])
    ∧ (prefixSettingsRename [(str "1a2b3c", str "Old Game"), (str "9f8e7d", str "Other")]
        [icoFileName (str "/p/Test") (str "Old Game") (str "1a2b3c")]
        [some ⟨0, str "1a2b3c", false⟩] (str "Old Game") (str "New Game")
        (str "/p/Test")).controllers = [some ⟨0, str "1a2b3c", false⟩] :=
  rename_preserves_hash [(str "1a2b3c", str "Old Game"), (str "9f8e7d", str "Other")]
    [icoFileName (str "/p/Test") (str "Old Game") (str "1a2b3c")]
    [some ⟨0, str "1a2b3c", false⟩] (str "Old Game") (str "New Game") (str "/p/Test")
    (str "1a2b3c") (by decide) (by decide) (by decide)

/-- C9 counterexample: the source sorts with `Qt::CaseInsensitive`, not
lexicographically — on the display names `["a", "B"]` the rendered order is
`["a", "B"]` while the lexicographic sort gives `["B", "a"]` (uppercase
letters order before lowercase ones). -/
theorem renderOrder_not_lexicographic :
    renderShortcutOrder [str "a", str "B"] ≠ specLexOrder [str "a", str "B"] := by
  decide

theorem sorted_ci_strict (l : List Str) (hs : List.Sorted qtCiLe l)
    (hn : (l.map lowerStr).Nodup) : List.Sorted qtCiLt l := by
  have hne : List.Pairwise (fun a b => lowerStr a ≠ lowerStr b) l :=
    List.pairwise_map.mp hn
  exact (hs.and hne).imp fun h => lt_of_le_of_ne h.1 h.2

/-- C9 amended: the rendered order is the display names sorted
case-insensitively (Qt::CaseInsensitive) at render time; provided no two
display names coincide after case folding, the rendered order is identical
for every insertion order of the same set of names. -/
theorem renderOrder_ci_sorted_invariant (l1 l2 : List Str)
    (hperm : l1.Perm l2) (hnodup : (l1.map lowerStr).Nodup) :
    renderShortcutOrder l1 = renderShortcutOrder l2
    ∧ List.Sorted qtCiLe (renderShortcutOrder l1)
    ∧ (renderShortcutOrder l1).Perm l1 := by
  have hs1 : List.Sorted qtCiLe (renderShortcutOrder l1) :=
    List.sorted_insertionSort qtCiLe l1
  have hs2 : List.Sorted qtCiLe (renderShortcutOrder l2) :=
    List.sorted_insertionSort qtCiLe l2
  have hp1 : (renderShortcutOrder l1).Perm l1 := List.perm_insertionSort qtCiLe l1
  have hp2 : (renderShortcutOrder l2).Perm l2 := List.perm_insertionSort qtCiLe l2
  have hp : (renderShortcutOrder l1).Perm (renderShortcutOrder l2) :=
    (hp1.trans hperm).trans hp2.symm
  have hn1 : ((renderShortcutOrder l1).map lowerStr).Nodup :=
    ((hp1.map lowerStr).nodup_iff).mpr hnodup
  have hn2 : ((renderShortcutOrder l2).map lowerStr).Nodup :=
    ((hp2.map lowerStr).nodup_iff).mpr (((hperm.map lowerStr).nodup_iff).mp hnodup)
  exact ⟨List.eq_of_perm_of_sorted hp (sorted_ci_strict _ hs1 hn1)
      (sorted_ci_strict _ hs2 hn2), hs1, hp1⟩

/-- C9 amended witness: two insertion orders of the names `"b"` and `"A"`
render identically, case-insensitively sorted. -/
theorem renderOrder_ci_sorted_invariant_witness :
    renderShortcutOrder [str "b", str "A"] = renderShortcutOrder [str "A", str "b"]
    ∧ List.Sorted qtCiLe (renderShortcutOrder [str "b", str "A"])
    ∧ (renderShortcutOrder [str "b", str "A"]).Perm [str "b", str "A"] :=
  renderOrder_ci_sorted_invariant [str "b", str "A"] [str "A", str "b"]
    (by decide) (by decide)

end Nero
